import Mathlib

/-!
Verification of the agent orchestration core: a shallow embedding of the
MessageManager (context store), the ToolManager dispatch loops and the
BrowserAgent execution strategies, with theorems checking the stated
properties of the system against the embedded code.
-/

namespace Spec2Proof

/-! ## Context entries (BaseMessage) and token estimation

Embeds the message model used by `MessageManager`: four message kinds
(system / human / ai / tool), plus the browser-state kind used by the
strategy variant of the agent. Token cost is the per-message overhead
plus a length-derived approximation of the content, as in the source. -/

inductive BaseMessage where
  | system (content : String)
  | human (content : String)
  | ai (content : String)
  | tool (content : String) (tool_call_id : String)
  | browserState (content : String)
deriving DecidableEq, Repr

def BaseMessage.content : BaseMessage → String
  | .system c => c
  | .human c => c
  | .ai c => c
  | .tool c _ => c
  | .browserState c => c

def BaseMessage.isSystem : BaseMessage → Bool
  | .system _ => true
  | _ => false

def BaseMessage.isBrowserState : BaseMessage → Bool
  | .browserState _ => true
  | _ => false

def CHARS_PER_TOKEN : Nat := 4

def TOKENS_PER_MESSAGE : Nat := 3

/-- `Math.ceil(n / CHARS_PER_TOKEN)` on natural numbers. -/
def ceilDivTok (n : Nat) : Nat := (n + CHARS_PER_TOKEN - 1) / CHARS_PER_TOKEN

/-- Estimated token cost of one message: per-message overhead plus content
length divided by `CHARS_PER_TOKEN` (rounded up); tool messages additionally
count their `tool_call_id`. -/
def msgTokens (m : BaseMessage) : Nat :=
  TOKENS_PER_MESSAGE + ceilDivTok m.content.length +
    (match m with
     | .tool _ id => ceilDivTok id.length
     | _ => 0)

/-- Total estimated token cost of a message list (`getTokenCount`). -/
def tokenCountList (msgs : List BaseMessage) : Nat :=
  (msgs.map msgTokens).sum

/-! ## MessageManager (the Context Store) -/

structure MessageManager where
  messages : List BaseMessage := []
  maxTokens : Nat := 8192
deriving DecidableEq, Repr

/-- One eviction step of `_trimIfNeeded`: remove the first (oldest)
non-system message when one exists (`findIndex` + `splice`), otherwise
remove the oldest message unconditionally (`shift`). -/
def evictOne (msgs : List BaseMessage) : List BaseMessage :=
  let i := msgs.findIdx (fun m => !(m.isSystem))
  if i < msgs.length then msgs.eraseIdx i else msgs.drop 1

/-- The auto-trim loop, written with explicit fuel so that it computes by
kernel reduction; every iteration of the source's `while` loop removes one
message, so the message count bounds the iterations and is used as the
initial fuel (see `trim_unfold` for the loop-shaped unfolding). -/
def trimLoop (maxTokens : Nat) : Nat → List BaseMessage → List BaseMessage
  | 0, msgs => msgs
  | fuel + 1, msgs =>
    if maxTokens < tokenCountList msgs ∧ 1 < msgs.length then
      trimLoop maxTokens fuel (evictOne msgs)
    else msgs

/-- `_trimIfNeeded`: while the token count exceeds the budget and more
than one message remains, evict one message. -/
def trimIfNeededList (maxTokens : Nat) (msgs : List BaseMessage) :
    List BaseMessage :=
  trimLoop maxTokens msgs.length msgs

namespace MessageManager

def getMessages (mm : MessageManager) : List BaseMessage := mm.messages

def getTokenCount (mm : MessageManager) : Nat := tokenCountList mm.messages

/-- `add`: push the message, then auto-trim. -/
def add (mm : MessageManager) (m : BaseMessage) : MessageManager :=
  { mm with messages := trimIfNeededList mm.maxTokens (mm.messages ++ [m]) }

def addHuman (mm : MessageManager) (c : String) : MessageManager :=
  mm.add (.human c)

def addAI (mm : MessageManager) (c : String) : MessageManager :=
  mm.add (.ai c)

/-- `_removeSystemMessages`: drop every system message. -/
def removeSystemMessages (mm : MessageManager) : MessageManager :=
  { mm with messages := mm.messages.filter (fun m => !(m.isSystem)) }

/-- `addSystem`: remove all prior system messages, then add the new one. -/
def addSystem (mm : MessageManager) (c : String) : MessageManager :=
  mm.removeSystemMessages.add (.system c)

def addTool (mm : MessageManager) (c : String) (toolCallId : String) :
    MessageManager :=
  mm.add (.tool c toolCallId)

/-- `remaining`: `Math.max(0, maxTokens - getTokenCount())`, which is
truncated subtraction on naturals. -/
def remaining (mm : MessageManager) : Nat :=
  mm.maxTokens - mm.getTokenCount

def clear (mm : MessageManager) : MessageManager :=
  { mm with messages := [] }

/-- `removeLast`: pop the last message; the flag reports whether a message
was removed. -/
def removeLast (mm : MessageManager) : Bool × MessageManager :=
  (!(mm.messages.isEmpty), { mm with messages := mm.messages.dropLast })

def fork (mm : MessageManager) (includeHistory : Bool) : MessageManager :=
  if includeHistory then { messages := mm.messages, maxTokens := mm.maxTokens }
  else { messages := [], maxTokens := mm.maxTokens }

/-- Modelled from the spec: the strategy variant of the agent uses a
`removeMessagesByType(MessageType.BROWSER_STATE)` operation of its
MessageManager, whose source is not in the repository snapshot; the spec
describes it as replacing a previous environment-snapshot entry. -/
def removeBrowserStateMessages (mm : MessageManager) : MessageManager :=
  { mm with messages := mm.messages.filter (fun m => !(m.isBrowserState)) }

/-- Modelled from the spec: the strategy variant of the agent uses an
`addBrowserState` operation of its MessageManager (source not in the
repository snapshot); the spec describes it as appending the freshest
environment snapshot as an entry. -/
def addBrowserState (mm : MessageManager) (c : String) : MessageManager :=
  mm.add (.browserState c)

end MessageManager

/-- Read-only view handed to tools: `getAll` simply delegates to
`getMessages`. -/
def MessageManagerReadOnly.getAll (mm : MessageManager) : List BaseMessage :=
  mm.getMessages

/-! ## Tool calls, tool results and the tool registry

A tool call carries a name, opaque arguments and a call identifier. A
tool's `func` returns a JSON string; the agent parses it and inspects the
`ok` flag (and, for the planner, the `plan.steps` field). An invocation
can also throw. We model the outcome of one invocation as either a thrown
error, or a returned raw string together with its parse result (`none`
models a string `JSON.parse` rejects). -/

structure ToolCall where
  name : String
  args : String
  id : String
deriving DecidableEq, Repr

structure PlanStep where
  action : String
  reasoning : String
deriving DecidableEq, Repr

/-- The parsed JSON object a tool returns: the `ok` flag, an optional
textual `output`, an optional `error`, and (for the planner) an optional
`plan.steps` list. -/
structure ParsedResult where
  ok : Bool
  output : String := ""
  error : Option String := none
  plan : Option (List PlanStep) := none
deriving DecidableEq, Repr

inductive ToolOutcome where
  | throws (msg : String)
  | returns (raw : String) (parsed : Option ParsedResult)
deriving DecidableEq, Repr

/-- The Tool Manager as used by dispatch: name-keyed lookup of a tool
function from arguments to an invocation outcome. -/
def ToolEnv : Type := String → Option (String → ToolOutcome)

/-- A model of `JSON.stringify` for the result objects the dispatch loop
records (only the fields the agent ever stores). -/
def serializeResult (r : ParsedResult) : String :=
  "\x7b\"ok\":" ++ (if r.ok then "true" else "false") ++
    (match r.error with
     | some e => ",\"error\":\"" ++ e ++ "\""
     | none => "") ++ "\x7d"

/-- Substring containment, modelling JavaScript `String.includes`. -/
def strIncludes (haystack needle : String) : Bool :=
  decide (List.IsInfix needle.toList haystack.toList)

/-! ## Tool dispatch, strategy variant

Embeds `_processToolCalls` of the strategy variant of BrowserAgent: a
missing tool is skipped with a bare `continue`; `tool.func` and the
subsequent `JSON.parse` are not guarded, so a thrown invocation or a
malformed result string propagates out of the loop (modelled by
`Except.error`); a parsed result is appended as a tool message; a
successful `refresh_browser_state` result replaces the browser-state
entry; a successful `done_tool` result sets the completion flag and the
loop continues with the remaining calls. -/

def processToolCallsStrategy (env : ToolEnv) :
    List ToolCall → MessageManager → Bool → MessageManager × Except String Bool
  | [], mm, wasDone => (mm, .ok wasDone)
  | tc :: rest, mm, wasDone =>
    match env tc.name with
    | none => processToolCallsStrategy env rest mm wasDone
    | some f =>
      match f tc.args with
      | .throws e => (mm, .error e)
      | .returns raw none => (mm, .error ("JSON.parse: unexpected token in " ++ raw))
      | .returns raw (some parsed) =>
        let mm1 :=
          if tc.name == "refresh_browser_state" && parsed.ok then
            mm.removeBrowserStateMessages.addBrowserState parsed.output
          else mm
        let mm2 := mm1.addTool raw tc.id
        processToolCallsStrategy env rest mm2
          (wasDone || (tc.name == "done_tool" && parsed.ok))

/-- Whether one call of a batch is a successful sentinel completion call:
its tool resolves, the invocation returns a well-formed result, the name
is `done_tool` and the result is ok. -/
def callSucceedsDone (env : ToolEnv) (tc : ToolCall) : Bool :=
  match env tc.name with
  | none => false
  | some f =>
    match f tc.args with
    | .returns _ (some parsed) => tc.name == "done_tool" && parsed.ok
    | _ => false

/-- The LLM collaborator for one turn: given the full message history it
produces a final assistant response (accumulated text plus fully-formed
tool calls). -/
structure LLMResponse where
  content : String
  tool_calls : List ToolCall
deriving DecidableEq, Repr

def LLM : Type := List BaseMessage → LLMResponse

/-- Embeds `_executeSingleTurn` of the strategy variant: append the
instruction as a human entry, invoke the model over the current context,
then either dispatch the tool calls (after an empty assistant entry) or
record the assistant text. Returns whether `done_tool` succeeded. -/
def executeSingleTurn (llm : LLM) (env : ToolEnv) (instruction : String)
    (mm : MessageManager) : MessageManager × Except String Bool :=
  let mm1 := mm.addHuman instruction
  let r := llm mm1.getMessages
  if r.tool_calls.isEmpty then
    if r.content ≠ "" then (mm1.addAI r.content, .ok false) else (mm1, .ok false)
  else
    processToolCallsStrategy env r.tool_calls (mm1.addAI "") false

/-! ## Classification -/

structure ClassificationResult where
  is_simple_task : Bool
deriving DecidableEq, Repr

/-- The collaborators `_classifyTask` depends on: whether the
classification tool is registered, the outcome of invoking it, and the
result of `JSON.parse` applied to the parsed result's `output` field
(`none` models a throwing parse). -/
structure ClassifyOracle where
  toolRegistered : Bool
  outcome : ToolOutcome
  parseOutput : String → Option ClassificationResult

/-- Embeds `_classifyTask` of the strategy variant: missing tool, thrown
invocation, malformed result, non-ok result, and malformed `output` all
fall through to the complex-task default. -/
def classifyTask (o : ClassifyOracle) : ClassificationResult :=
  if !o.toolRegistered then { is_simple_task := false }
  else
    match o.outcome with
    | .throws _ => { is_simple_task := false }
    | .returns _ none => { is_simple_task := false }
    | .returns _ (some parsed) =>
      if parsed.ok then
        match o.parseOutput parsed.output with
        | none => { is_simple_task := false }
        | some c => { is_simple_task := c.is_simple_task }
      else { is_simple_task := false }

/-- A classification failure in the sense of the spec: anything other than
a registered tool returning a well-formed ok result whose output parses. -/
def ClassifyOracle.isFailure (o : ClassifyOracle) : Prop :=
  ¬ (o.toolRegistered = true ∧ ∃ raw parsed c,
      o.outcome = .returns raw (some parsed) ∧ parsed.ok = true ∧
      o.parseOutput parsed.output = some c)

/-! ## Validation -/

structure ValidationResult where
  isComplete : Bool
  reasoning : String
  suggestions : List String
deriving DecidableEq, Repr

structure ValidateOracle where
  toolRegistered : Bool
  outcome : ToolOutcome
  parseOutput : String → Option ValidationResult

/-- Embeds `_validateTaskCompletion` of the strategy variant. Note that
every failure branch returns `isComplete := true`. -/
def validateTaskCompletion (o : ValidateOracle) : ValidationResult :=
  if !o.toolRegistered then
    { isComplete := true, reasoning := "Validation skipped - tool not available",
      suggestions := [] }
  else
    match o.outcome with
    | .throws _ =>
      { isComplete := true, reasoning := "Validation failed - continuing execution",
        suggestions := [] }
    | .returns _ none =>
      { isComplete := true, reasoning := "Validation failed - continuing execution",
        suggestions := [] }
    | .returns _ (some parsed) =>
      if parsed.ok then
        match o.parseOutput parsed.output with
        | none =>
          { isComplete := true, reasoning := "Validation failed - continuing execution",
            suggestions := [] }
        | some v => v
      else
        { isComplete := true, reasoning := "Validation failed - continuing execution",
          suggestions := [] }

/-! ## Planner -/

/-- Embeds the `func` of `createPlannerTool` (PlannerTool.ts): everything
inside the `try` (LLM call, context read, browser snapshot, structured
output) is summarized by an `Except`; a throw is caught and serialized as
`toolError`, a success is serialized with the plan attached. The tool
itself never throws. -/
def plannerToolFunc (llmOutcome : Except String (List PlanStep)) : ParsedResult :=
  match llmOutcome with
  | .ok steps =>
    { ok := true,
      output := "Created plan with " ++ toString steps.length ++ " steps",
      plan := some steps }
  | .error e => { ok := false, error := some ("Planning failed: " ++ e) }

/-- Embeds `_createMultiStepPlan` of the strategy variant, parameterized
by the outcome of invoking the planner tool: a throw (from `func` or from
`JSON.parse`) propagates; otherwise the raw result is recorded (empty
assistant entry plus tool entry with id `planner_call`) and the steps are
extracted, defaulting to the empty plan. -/
def createMultiStepPlan (outcome : ToolOutcome) (mm : MessageManager) :
    MessageManager × Except String (List PlanStep) :=
  match outcome with
  | .throws e => (mm, .error e)
  | .returns raw none => (mm, .error ("JSON.parse: unexpected token in " ++ raw))
  | .returns raw (some parsed) =>
    let mm1 := (mm.addAI "").addTool raw "planner_call"
    if parsed.ok then
      match parsed.plan with
      | some steps => (mm1, .ok steps)
      | none => (mm1, .ok [])
    else (mm1, .ok [])

/-! ## Execution strategies (strategy variant of BrowserAgent) -/

def MAX_SIMPLE_ATTEMPTS : Nat := 3

def MAX_TOTAL_STEPS : Nat := 20

def STEPS_PER_PLAN : Nat := 3

/-- One turn of the strategy-level control loops: an instruction is run
against the context, producing the updated context and either a thrown
error or the completion flag. -/
def TurnFn : Type := String → MessageManager → MessageManager × Except String Bool

/-- The retry instruction of the simple strategy. -/
def simpleInstruction (task : String) (attempt : Nat) : String :=
  "This is attempt " ++ toString attempt ++ "/" ++ toString MAX_SIMPLE_ATTEMPTS ++
    ". The user's goal is: \"" ++ task ++
    "\". Please take the next best action to complete this goal and call the 'done_tool' when finished."

def simpleExhaustionError : String :=
  "Simple task failed to complete after " ++ toString MAX_SIMPLE_ATTEMPTS ++ " attempts."

/-- The retry loop of `_executeSimpleTaskStrategy`: the first argument is
the number of remaining attempts, the second the current attempt number
(the loop runs `attempt = 1 .. MAX_SIMPLE_ATTEMPTS`). When the attempts
are exhausted the strategy throws; nothing further is written to the
context store. -/
def simpleAttemptLoop (turn : TurnFn) (task : String) :
    Nat → Nat → MessageManager → MessageManager × Except String Unit
  | 0, _, mm => (mm, .error simpleExhaustionError)
  | remaining + 1, attempt, mm =>
    match turn (simpleInstruction task attempt) mm with
    | (mm1, .error e) => (mm1, .error e)
    | (mm1, .ok true) => (mm1, .ok ())
    | (mm1, .ok false) => simpleAttemptLoop turn task remaining (attempt + 1) mm1

/-- Embeds `_executeSimpleTaskStrategy`: up to `MAX_SIMPLE_ATTEMPTS`
turns, success as soon as one signals completion, a thrown error after the
last failed attempt. -/
def executeSimpleTaskStrategy (turn : TurnFn) (task : String)
    (mm : MessageManager) : MessageManager × Except String Unit :=
  simpleAttemptLoop turn task MAX_SIMPLE_ATTEMPTS 1 mm

def planningFailedError : String :=
  "Planning failed. Could not generate next steps."

def maxStepsError : String :=
  "Task did not complete within the maximum of " ++ toString MAX_TOTAL_STEPS ++ " steps."

/-- The validator feedback appended to the context between plan segments. -/
def validationMessage (v : ValidationResult) : String :=
  "Validation result: " ++ v.reasoning ++ "\nSuggestions: " ++
    String.intercalate ", " v.suggestions

/-- The inner step loop of `_executeMultiStepStrategy`: execute the steps
of the current plan segment as turns, counting them against the global
ceiling and stopping early on completion or when the ceiling is hit. -/
def execPlanSegment (turn : TurnFn) :
    List PlanStep → MessageManager → Nat → MessageManager × Nat × Except String Bool
  | [], mm, ts => (mm, ts, .ok false)
  | step :: rest, mm, ts =>
    if MAX_TOTAL_STEPS ≤ ts then (mm, ts, .ok false)
    else
      match turn step.action mm with
      | (mm1, .error e) => (mm1, ts + 1, .error e)
      | (mm1, .ok true) => (mm1, ts + 1, .ok true)
      | (mm1, .ok false) => execPlanSegment turn rest mm1 (ts + 1)

/-- The plan-execute-validate loop of `_executeMultiStepStrategy`,
parameterized by the planning step (which mutates the context and may
throw), the validator and the turn executor, and threading the global step
counter `totalStepsExecuted`. Written with an explicit fuel bounding the
number of planning cycles: every cycle with a non-empty plan advances the
step counter, so `MAX_TOTAL_STEPS` cycles suffice, and a run that exhausts
the fuel has necessarily reached the step ceiling, where the source throws
the max-steps error (see `multiStep_unfold`). -/
def multiStepGo (plan : MessageManager → MessageManager × Except String (List PlanStep))
    (validate : MessageManager → ValidationResult) (turn : TurnFn) :
    Nat → MessageManager → Nat → MessageManager × Nat × Except String Unit
  | 0, mm, ts => (mm, ts, .error maxStepsError)
  | fuel + 1, mm, ts =>
    if ts < MAX_TOTAL_STEPS then
      match plan mm with
      | (mm1, .error e) => (mm1, ts, .error e)
      | (mm1, .ok steps) =>
        if steps = [] then (mm1, ts, .error planningFailedError)
        else
          match execPlanSegment turn steps mm1 ts with
          | (mm2, ts2, .error e) => (mm2, ts2, .error e)
          | (mm2, ts2, .ok true) => (mm2, ts2, .ok ())
          | (mm2, ts2, .ok false) =>
            let v := validate mm2
            if v.isComplete then (mm2, ts2, .ok ())
            else
              multiStepGo plan validate turn fuel
                (if v.suggestions.isEmpty then mm2 else mm2.addAI (validationMessage v)) ts2
    else (mm, ts, .error maxStepsError)

/-- Embeds `_executeMultiStepStrategy`: the loop starting from zero
executed steps. Returns the final context, the final value of
`totalStepsExecuted` and the outcome. -/
def executeMultiStepStrategy
    (plan : MessageManager → MessageManager × Except String (List PlanStep))
    (validate : MessageManager → ValidationResult) (turn : TurnFn)
    (mm : MessageManager) : MessageManager × Nat × Except String Unit :=
  multiStepGo plan validate turn MAX_TOTAL_STEPS mm 0

/-! ## Tool dispatch, iteration-loop variant (BrowserAgent.ts)

Embeds `_processToolCalls` of the iteration-loop variant: a missing tool
synthesizes an `{ok:false}` result, records it and continues with the plan
cleared; a thrown invocation (or malformed result string) is caught and
converted to `{ok:false, error}`; every result is recorded as a tool
entry; a successful `done_tool` returns `true` immediately, skipping the
remaining calls of the batch; any failed result (or a `page changed`
error) clears the current plan. -/

/-- `_updateMessageManagerWithToolCall` of the iteration-loop variant:
record the call and its result as one tool entry. -/
def updateMMWithToolCall (mm : MessageManager) (toolName : String)
    (result : ParsedResult) (toolCallId : Option String) : MessageManager :=
  mm.addTool ("Called " ++ toolName ++ " tool and got result: " ++ serializeResult result)
    (toolCallId.getD (toolName ++ "_result"))

def processToolCallsIter (env : ToolEnv) :
    List ToolCall → MessageManager → List PlanStep →
    MessageManager × List PlanStep × Bool
  | [], mm, plan => (mm, plan, false)
  | tc :: rest, mm, plan =>
    match env tc.name with
    | none =>
      let result : ParsedResult :=
        { ok := false, error := some ("Tool " ++ tc.name ++ " not found") }
      processToolCallsIter env rest (updateMMWithToolCall mm tc.name result (some tc.id)) []
    | some f =>
      let result : ParsedResult :=
        match f tc.args with
        | .throws e => { ok := false, error := some e }
        | .returns raw none =>
          { ok := false, error := some ("JSON.parse: unexpected token in " ++ raw) }
        | .returns _ (some parsed) => parsed
      let mm1 := updateMMWithToolCall mm tc.name result (some tc.id)
      if tc.name == "done_tool" && result.ok then (mm1, plan, true)
      else
        let plan1 :=
          if !result.ok || strIncludes (result.error.getD "") "page changed" then []
          else plan
        processToolCallsIter env rest mm1 plan1

/-! ## The public append surface as an operation language (for the
system-entry invariant), and a small heap model for the copying
enumeration (`getMessages` returns `[...this.messages]`). -/

/-- The kind-specific public operations of the MessageManager. The
generic `add` is deliberately not in this list: it accepts an arbitrary
message, including a system message (see the counterexample to the
one-system-entry claim). -/
inductive StoreOp where
  | human (c : String)
  | ai (c : String)
  | system (c : String)
  | tool (c : String) (id : String)
  | clear
  | removeLast
deriving DecidableEq, Repr

def applyOp (mm : MessageManager) : StoreOp → MessageManager
  | .human c => mm.addHuman c
  | .ai c => mm.addAI c
  | .system c => mm.addSystem c
  | .tool c id => mm.addTool c id
  | .clear => mm.clear
  | .removeLast => (mm.removeLast).2

def applyOps (mm : MessageManager) (ops : List StoreOp) : MessageManager :=
  ops.foldl applyOp mm

/-- Number of live system entries in the store. -/
def systemCount (mm : MessageManager) : Nat :=
  (mm.messages.filter (fun x => x.isSystem)).length

/-- A heap of message arrays: models JavaScript array identity, so that
the copying behaviour of `getMessages` (`return [...this.messages]`) is
observable. -/
structure Heap where
  cells : List (List BaseMessage)
deriving DecidableEq, Repr

def Heap.read (h : Heap) (i : Nat) : List BaseMessage :=
  h.cells.getD i []

def Heap.write (h : Heap) (i : Nat) (a : List BaseMessage) : Heap :=
  { cells := h.cells.set i a }

/-- Allocate a fresh array holding `a`, returning its address. -/
def Heap.alloc (h : Heap) (a : List BaseMessage) : Heap × Nat :=
  ({ cells := h.cells ++ [a] }, h.cells.length)

/-- A MessageManager whose `messages` array lives at `addr` in the heap. -/
structure MessageManagerRef where
  addr : Nat
deriving DecidableEq, Repr

/-- `getMessages` in the heap model: `return [...this.messages]` — copy
the internal array into a freshly allocated one and return its address. -/
def getMessagesRef (h : Heap) (r : MessageManagerRef) : Heap × Nat :=
  h.alloc (h.read r.addr)

/-- The read-only view's `getAll` delegates to `getMessages`. -/
def getAllRef (h : Heap) (r : MessageManagerRef) : Heap × Nat :=
  getMessagesRef h r


/-! ## Basic lemmas about token counts, eviction and trimming -/

theorem evictOne_length (msgs : List BaseMessage) (h : 0 < msgs.length) :
    (evictOne msgs).length = msgs.length - 1 := by
  unfold evictOne
  by_cases hi : msgs.findIdx (fun m => !(m.isSystem)) < msgs.length
  · simp only [hi, if_true]
    simp [List.length_eraseIdx, hi]
  · simp only [hi, if_false]
    simp [List.length_drop]

/-- The fuel-based trim satisfies the `while`-loop equation of the
source's `_trimIfNeeded`. -/
theorem trim_unfold (maxTokens : Nat) (msgs : List BaseMessage) :
    trimIfNeededList maxTokens msgs =
      if maxTokens < tokenCountList msgs ∧ 1 < msgs.length then
        trimIfNeededList maxTokens (evictOne msgs)
      else msgs := by
  unfold trimIfNeededList
  by_cases hc : maxTokens < tokenCountList msgs ∧ 1 < msgs.length
  · rw [if_pos hc]
    rcases hl : msgs.length with _ | k
    · omega
    · rw [trimLoop, if_pos hc]
      have he : (evictOne msgs).length = k := by
        rw [evictOne_length msgs (by omega)]
        omega
      rw [he]
  · rw [if_neg hc]
    rcases hl : msgs.length with _ | k
    · have : msgs = [] := List.length_eq_zero.mp hl
      subst this
      simp [trimLoop]
    · rw [trimLoop, if_neg hc]


theorem tokenCountList_nil : tokenCountList [] = 0 := rfl

theorem tokenCountList_cons (a : BaseMessage) (l : List BaseMessage) :
    tokenCountList (a :: l) = msgTokens a + tokenCountList l := by
  simp [tokenCountList]

theorem tokenCountList_append (l1 l2 : List BaseMessage) :
    tokenCountList (l1 ++ l2) = tokenCountList l1 + tokenCountList l2 := by
  simp [tokenCountList]

theorem tokenCountList_sublist {l1 l2 : List BaseMessage} (h : l1.Sublist l2) :
    tokenCountList l1 ≤ tokenCountList l2 := by
  induction h with
  | slnil => exact Nat.le_refl _
  | cons a _ ih =>
    rw [tokenCountList_cons]
    omega
  | cons₂ a _ ih =>
    rw [tokenCountList_cons, tokenCountList_cons]
    omega

theorem tokenCountList_perm {l1 l2 : List BaseMessage} (h : l1.Perm l2) :
    tokenCountList l1 = tokenCountList l2 :=
  (h.map msgTokens).sum_eq

theorem evictOne_sublist (msgs : List BaseMessage) :
    (evictOne msgs).Sublist msgs := by
  unfold evictOne
  dsimp only
  split
  · exact List.eraseIdx_sublist _ _
  · exact List.drop_sublist _ _

theorem trim_sublist (maxTokens : Nat) (msgs : List BaseMessage) :
    (trimIfNeededList maxTokens msgs).Sublist msgs := by
  suffices H : ∀ (n : Nat) (msgs : List BaseMessage), msgs.length = n →
      (trimIfNeededList maxTokens msgs).Sublist msgs by exact H _ msgs rfl
  intro n
  induction n using Nat.strong_induction_on with
  | _ n ih =>
    intro msgs hn
    subst hn
    rw [trim_unfold]
    by_cases hc : maxTokens < tokenCountList msgs ∧ 1 < msgs.length
    · rw [if_pos hc]
      have hlen : (evictOne msgs).length = msgs.length - 1 :=
        evictOne_length msgs (by omega)
      exact (ih (evictOne msgs).length (by omega) (evictOne msgs) rfl).trans
        (evictOne_sublist msgs)
    · rw [if_neg hc]

theorem trim_post (maxTokens : Nat) (msgs : List BaseMessage) :
    tokenCountList (trimIfNeededList maxTokens msgs) ≤ maxTokens ∨
      (trimIfNeededList maxTokens msgs).length ≤ 1 := by
  suffices H : ∀ (n : Nat) (msgs : List BaseMessage), msgs.length = n →
      tokenCountList (trimIfNeededList maxTokens msgs) ≤ maxTokens ∨
        (trimIfNeededList maxTokens msgs).length ≤ 1 by exact H _ msgs rfl
  intro n
  induction n using Nat.strong_induction_on with
  | _ n ih =>
    intro msgs hn
    subst hn
    rw [trim_unfold]
    by_cases hc : maxTokens < tokenCountList msgs ∧ 1 < msgs.length
    · rw [if_pos hc]
      have hlen : (evictOne msgs).length = msgs.length - 1 :=
        evictOne_length msgs (by omega)
      exact ih (evictOne msgs).length (by omega) (evictOne msgs) rfl
    · rw [if_neg hc]
      rcases not_and_or.mp hc with h | h
      · exact Or.inl (by omega)
      · exact Or.inr (by omega)

theorem trim_length_pos (maxTokens : Nat) (msgs : List BaseMessage)
    (h : 0 < msgs.length) : 0 < (trimIfNeededList maxTokens msgs).length := by
  suffices H : ∀ (n : Nat) (msgs : List BaseMessage), msgs.length = n →
      0 < msgs.length → 0 < (trimIfNeededList maxTokens msgs).length by
    exact H _ msgs rfl h
  clear h msgs
  intro n
  induction n using Nat.strong_induction_on with
  | _ n ih =>
    intro msgs hn h
    subst hn
    rw [trim_unfold]
    by_cases hc : maxTokens < tokenCountList msgs ∧ 1 < msgs.length
    · rw [if_pos hc]
      have hlen : (evictOne msgs).length = msgs.length - 1 :=
        evictOne_length msgs (by omega)
      exact ih (evictOne msgs).length (by omega) (evictOne msgs) rfl (by omega)
    · rw [if_neg hc]
      exact h

/-- Retention of the most recently appended message: if the system
messages alongside it fit the budget together with it, or the preceding
messages contain no system message at all, the trim loop never removes
the final message. -/
theorem trim_keeps_last (maxTokens : Nat) (init : List BaseMessage)
    (m : BaseMessage)
    (h : tokenCountList (init.filter (fun x => x.isSystem) ++ [m]) ≤ maxTokens ∨
      (∀ x ∈ init, x.isSystem = false)) :
    ∃ init', init'.Sublist init ∧
      trimIfNeededList maxTokens (init ++ [m]) = init' ++ [m] := by
  suffices H : ∀ (n : Nat) (init : List BaseMessage), init.length = n →
      (tokenCountList (init.filter (fun x => x.isSystem) ++ [m]) ≤ maxTokens ∨
        (∀ x ∈ init, x.isSystem = false)) →
      ∃ init', init'.Sublist init ∧
        trimIfNeededList maxTokens (init ++ [m]) = init' ++ [m] by
    exact H _ init rfl h
  clear h init
  intro n
  induction n using Nat.strong_induction_on with
  | _ n ih =>
    intro init hn h
    subst hn
    rw [trim_unfold]
    by_cases hc : maxTokens < tokenCountList (init ++ [m]) ∧ 1 < (init ++ [m]).length
    · rw [if_pos hc]
      have hinit : init ≠ [] := by
        intro he
        subst he
        simp at hc
      by_cases hfi : init.findIdx (fun x => !(x.isSystem)) < init.length
      · -- the oldest non-system message lies inside `init`
        have hfi2 : (init ++ [m]).findIdx (fun x => !(x.isSystem)) =
            init.findIdx (fun x => !(x.isSystem)) := by
          rw [List.findIdx_append, if_pos hfi]
        have hlt : (init ++ [m]).findIdx (fun x => !(x.isSystem)) <
            (init ++ [m]).length := by
          rw [hfi2, List.length_append]
          omega
        have hev : evictOne (init ++ [m]) =
            init.eraseIdx (init.findIdx (fun x => !(x.isSystem))) ++ [m] := by
          unfold evictOne
          dsimp only
          rw [if_pos hlt, hfi2, List.eraseIdx_append_of_lt_length hfi]
        rw [hev]
        have hsub : (init.eraseIdx (init.findIdx (fun x => !(x.isSystem)))).Sublist init :=
          List.eraseIdx_sublist _ _
        have hlen : (init.eraseIdx (init.findIdx (fun x => !(x.isSystem)))).length =
            init.length - 1 := by
          rw [List.length_eraseIdx, if_pos hfi]
        have hh : tokenCountList
            ((init.eraseIdx (init.findIdx (fun x => !(x.isSystem)))).filter
              (fun x => x.isSystem) ++ [m]) ≤ maxTokens ∨
            (∀ x ∈ init.eraseIdx (init.findIdx (fun x => !(x.isSystem))),
              x.isSystem = false) := by
        -- the hypothesis transfers along the eviction
          rcases h with h | h
          · left
            have hmono := tokenCountList_sublist
              ((hsub.filter (fun x => x.isSystem)))
            rw [tokenCountList_append] at h ⊢
            omega
          · right
            intro x hx
            exact h x (hsub.subset hx)
        obtain ⟨init', hsub', heq⟩ := ih (init.length - 1) (by omega) _ hlen hh
        exact ⟨init', hsub'.trans hsub, heq⟩
      · -- every message of `init` is a system message
        have hidx : init.findIdx (fun x => !(x.isSystem)) = init.length :=
          Nat.le_antisymm (List.findIdx_le_length _) (Nat.le_of_not_lt hfi)
        have hallsys : ∀ x ∈ init, x.isSystem = true := by
          intro x hx
          have := List.findIdx_eq_length.mp hidx x hx
          simpa using this
        rcases h with h | h
        · exfalso
          have hfil : init.filter (fun x => x.isSystem) = init :=
            List.filter_eq_self.mpr hallsys
          rw [hfil] at h
          omega
        · exfalso
          rcases init with _ | ⟨a, t⟩
          · exact hinit rfl
          · have h1 := hallsys a (List.mem_cons_self _ _)
            have h2 := h a (List.mem_cons_self _ _)
            rw [h1] at h2
            simp at h2
    · rw [if_neg hc]
      exact ⟨init, List.Sublist.refl _, rfl⟩

theorem trim_noop (maxTokens : Nat) (msgs : List BaseMessage)
    (h : tokenCountList msgs ≤ maxTokens) :
    trimIfNeededList maxTokens msgs = msgs := by
  rw [trim_unfold, if_neg]
  intro hc
  omega

theorem mmExt {a b : MessageManager} (h1 : a.messages = b.messages)
    (h2 : a.maxTokens = b.maxTokens) : a = b := by
  cases a
  cases b
  simp_all

/-! ## C3 — budget and retention of the newest entry -/

/-- C3 counterexample: with budget 10, a system entry alone costing 13
tokens, then appending a human entry: the append is evicted (the store
still holds only the system entry) and the total cost still exceeds the
budget — both conjuncts of the claim fail at this input. -/
theorem budget_and_retention_counterexample :
    ((((MessageManager.mk [] 10).addSystem
        "0123456789012345678901234567890123456789").addHuman "hi").messages =
      [.system "0123456789012345678901234567890123456789"]) ∧
    10 < (((MessageManager.mk [] 10).addSystem
        "0123456789012345678901234567890123456789").addHuman "hi").getTokenCount ∧
    (BaseMessage.human "hi") ∉ (((MessageManager.mk [] 10).addSystem
        "0123456789012345678901234567890123456789").addHuman "hi").messages := by
  decide

/-- C3 (amended): after each append and its trim, either the total cost
is within the budget or exactly one entry remains (a single entry is never
evicted, even over budget); and the newest entry is retained whenever the
system entries of the store fit the budget together with it — the
counterexample shows it can be evicted when an over-budget system prefix
remains. -/
theorem budget_and_retention_amended (mm : MessageManager) (m : BaseMessage) :
    ((mm.add m).getTokenCount ≤ mm.maxTokens ∨ (mm.add m).messages.length = 1) ∧
    (tokenCountList (mm.messages.filter (fun x => x.isSystem) ++ [m]) ≤ mm.maxTokens →
      (mm.add m).messages.getLast? = some m) := by
  constructor
  · rcases trim_post mm.maxTokens (mm.messages ++ [m]) with h | h
    · exact Or.inl h
    · refine Or.inr ?_
      have hpos : 0 < (trimIfNeededList mm.maxTokens (mm.messages ++ [m])).length :=
        trim_length_pos mm.maxTokens (mm.messages ++ [m]) (by simp)
      show (trimIfNeededList mm.maxTokens (mm.messages ++ [m])).length = 1
      omega
  · intro h
    obtain ⟨init', _, heq⟩ := trim_keeps_last mm.maxTokens mm.messages m (Or.inl h)
    show (trimIfNeededList mm.maxTokens (mm.messages ++ [m])).getLast? = some m
    rw [heq, List.getLast?_concat]

theorem budget_and_retention_amended_witness :
    (tokenCountList (((MessageManager.mk [.system "sys"] 100).messages.filter
        (fun x => x.isSystem)) ++ [.human "hi"]) ≤ 100) ∧
    ((MessageManager.mk [.system "sys"] 100).add (.human "hi")).messages.getLast? =
      some (.human "hi") :=
  ⟨by decide,
    (budget_and_retention_amended (MessageManager.mk [.system "sys"] 100)
      (.human "hi")).2 (by decide)⟩

/-! ## C8 — eviction order of the trim loop -/

theorem trim_iterate (maxTokens : Nat) (msgs : List BaseMessage) :
    ∃ n, trimIfNeededList maxTokens msgs = evictOne^[n] msgs := by
  suffices H : ∀ (n : Nat) (msgs : List BaseMessage), msgs.length = n →
      ∃ k, trimIfNeededList maxTokens msgs = evictOne^[k] msgs by exact H _ msgs rfl
  intro n
  induction n using Nat.strong_induction_on with
  | _ n ih =>
    intro msgs hn
    subst hn
    rw [trim_unfold]
    by_cases hc : maxTokens < tokenCountList msgs ∧ 1 < msgs.length
    · rw [if_pos hc]
      have hlen : (evictOne msgs).length = msgs.length - 1 :=
        evictOne_length msgs (by omega)
      obtain ⟨k, hk⟩ := ih (evictOne msgs).length (by omega) (evictOne msgs) rfl
      exact ⟨k + 1, by rw [Function.iterate_succ_apply, hk]⟩
    · rw [if_neg hc]
      exact ⟨0, (Function.iterate_zero_apply _ _).symm⟩

theorem evictOne_of_exists_nonSystem (msgs : List BaseMessage)
    (h : ∃ x ∈ msgs, x.isSystem = false) :
    ∃ pre x post, msgs = pre ++ x :: post ∧ x.isSystem = false ∧
      (∀ y ∈ pre, y.isSystem = true) ∧ evictOne msgs = pre ++ post := by
  induction msgs with
  | nil => simp at h
  | cons a t ih =>
    by_cases ha : a.isSystem = true
    · have h' : ∃ x ∈ t, x.isSystem = false := by
        rcases h with ⟨x, hx, hfx⟩
        rcases List.mem_cons.mp hx with rfl | hxt
        · rw [ha] at hfx
          simp at hfx
        · exact ⟨x, hxt, hfx⟩
      obtain ⟨pre, x, post, heq, hx, hpre, hev⟩ := ih h'
      refine ⟨a :: pre, x, post, by rw [heq, List.cons_append], hx, ?_, ?_⟩
      · intro y hy
        rcases List.mem_cons.mp hy with rfl | hyp
        · exact ha
        · exact hpre y hyp
      · have hft : t.findIdx (fun x => !(x.isSystem)) < t.length := by
          apply List.findIdx_lt_length_of_exists
          rcases h' with ⟨x, hxm, hxf⟩
          exact ⟨x, hxm, by simp [hxf]⟩
        have hfc : (a :: t).findIdx (fun x => !(x.isSystem)) =
            t.findIdx (fun x => !(x.isSystem)) + 1 := by
          rw [List.findIdx_cons]
          simp [ha]
        unfold evictOne at hev ⊢
        dsimp only at hev ⊢
        rw [if_pos hft] at hev
        rw [hfc, if_pos (by simp only [List.length_cons]; omega),
          List.eraseIdx_cons_succ, hev, List.cons_append]
    · have ha2 : a.isSystem = false := by
        simpa using ha
      refine ⟨[], a, t, rfl, ha2, by simp, ?_⟩
      unfold evictOne
      dsimp only
      have hfc : (a :: t).findIdx (fun x => !(x.isSystem)) = 0 := by
        rw [List.findIdx_cons]
        simp [ha2]
      rw [hfc, if_pos (by simp), List.eraseIdx_cons_zero, List.nil_append]

theorem evictOne_of_all_system (msgs : List BaseMessage)
    (h : ∀ x ∈ msgs, x.isSystem = true) : evictOne msgs = msgs.drop 1 := by
  unfold evictOne
  dsimp only
  have hidx : msgs.findIdx (fun x => !(x.isSystem)) = msgs.length :=
    List.findIdx_eq_length.mpr (fun x hx => by simp [h x hx])
  rw [hidx, if_neg (lt_irrefl _)]

/-- C8: when an append pushes the total cost over the budget, the store
after the append is an order-preserving sublist of the pushed list,
obtained by iterating the single-eviction step; and the single-eviction
step removes the oldest non-system entry when one exists (everything
before it is a system entry) and the oldest entry unconditionally only
when every entry is a system entry. -/
theorem trim_evicts_oldest_nonsystem_first (mm : MessageManager) (m : BaseMessage)
    (hover : mm.maxTokens < tokenCountList (mm.messages ++ [m])) :
    (mm.add m).messages.Sublist (mm.messages ++ [m]) ∧
    (∃ n, (mm.add m).messages = evictOne^[n] (mm.messages ++ [m])) ∧
    (∀ msgs : List BaseMessage, (∃ x ∈ msgs, x.isSystem = false) →
      ∃ pre x post, msgs = pre ++ x :: post ∧ x.isSystem = false ∧
        (∀ y ∈ pre, y.isSystem = true) ∧ evictOne msgs = pre ++ post) ∧
    (∀ msgs : List BaseMessage, (∀ x ∈ msgs, x.isSystem = true) →
      evictOne msgs = msgs.drop 1) :=
  ⟨trim_sublist _ _, trim_iterate _ _, evictOne_of_exists_nonSystem,
    evictOne_of_all_system⟩

theorem trim_evicts_oldest_nonsystem_first_witness :
    ((MessageManager.mk [.human "aaaaaaaa", .system "ss"] 10).maxTokens <
      tokenCountList ((MessageManager.mk [.human "aaaaaaaa", .system "ss"] 10).messages ++
        [.human "bb"])) ∧
    ((MessageManager.mk [.human "aaaaaaaa", .system "ss"] 10).add
      (.human "bb")).messages.Sublist
        ((MessageManager.mk [.human "aaaaaaaa", .system "ss"] 10).messages ++
          [.human "bb"]) :=
  ⟨by decide,
    (trim_evicts_oldest_nonsystem_first
      (MessageManager.mk [.human "aaaaaaaa", .system "ss"] 10) (.human "bb")
      (by decide)).1⟩

/-! ## C9 — removing and re-adding the system entry -/

/-- C9 counterexample: for the store `[system "s", human "h"]`,
remove-by-kind(system) followed by re-adding the equivalent system entry
yields `[human "h", system "s"]` — the same entries, but the enumeration
order observably differs from the store in which the system entry was
never removed. -/
theorem remove_readd_system_counterexample :
    ((MessageManager.mk [.system "s", .human "h"] 8192).addSystem "s").getMessages =
      [.human "h", .system "s"] ∧
    ((MessageManager.mk [.system "s", .human "h"] 8192).addSystem "s").getMessages ≠
      (MessageManager.mk [.system "s", .human "h"] 8192).getMessages := by
  decide

theorem perm_single_system {c : String} :
    ∀ {l : List BaseMessage}, l.filter (fun x => x.isSystem) = [.system c] →
      l.Perm (l.filter (fun x => !(x.isSystem)) ++ [.system c]) := by
  intro l
  induction l with
  | nil =>
    intro h
    simp at h
  | cons a t ih =>
    intro h
    by_cases ha : a.isSystem = true
    · rw [List.filter_cons_of_pos ha] at h
      have ha2 : a = .system c := by
        injection h
      have ht : t.filter (fun x => x.isSystem) = [] := by
        injection h
      have htt : t.filter (fun x => !(x.isSystem)) = t := by
        apply List.filter_eq_self.mpr
        intro x hx
        have := List.filter_eq_nil_iff.mp ht x hx
        simpa using this
      rw [List.filter_cons_of_neg (by simp [ha]), htt]
      subst ha2
      exact (List.perm_append_singleton _ _).symm
    · rw [List.filter_cons_of_neg ha] at h
      have hperm := ih h
      rw [List.filter_cons_of_pos (by simpa using ha), List.cons_append]
      exact hperm.cons a

/-- C9 (amended): for a store within budget holding exactly one system
entry, remove-by-kind(system) followed by re-adding the equivalent system
entry yields a store with exactly the same entries, with the system entry
moved to the end; it is observably identical to the original store exactly
when the system entry was already the most recent entry. -/
theorem remove_readd_system_amended (mm : MessageManager) (c : String)
    (hbudget : mm.getTokenCount ≤ mm.maxTokens)
    (hsys : mm.messages.filter (fun x => x.isSystem) = [.system c]) :
    (mm.addSystem c).messages.Perm mm.messages ∧
    (mm.messages.getLast? = some (.system c) → mm.addSystem c = mm) := by
  have hperm := perm_single_system (c := c) hsys
  have hcost : tokenCountList (mm.messages.filter (fun x => !(x.isSystem)) ++
      [.system c]) = mm.getTokenCount := (tokenCountList_perm hperm).symm
  have hmsgs : (mm.addSystem c).messages =
      mm.messages.filter (fun x => !(x.isSystem)) ++ [.system c] := by
    show trimIfNeededList mm.maxTokens
      (mm.messages.filter (fun x => !(x.isSystem)) ++ [.system c]) = _
    exact trim_noop _ _ (by rw [hcost]; exact hbudget)
  constructor
  · rw [hmsgs]
    exact hperm.symm
  · intro hlast
    obtain ⟨init, hinit⟩ := List.getLast?_eq_some_iff.mp hlast
    have h1 : init.filter (fun x => x.isSystem) = [] := by
      have h0 := hsys
      rw [hinit, List.filter_append] at h0
      have hfc : (([.system c] : List BaseMessage).filter (fun x => x.isSystem)) =
          [.system c] := rfl
      rw [hfc] at h0
      exact List.append_left_eq_self.mp h0
    have h2 : mm.messages.filter (fun x => !(x.isSystem)) = init := by
      rw [hinit, List.filter_append]
      have hin : init.filter (fun x => !(x.isSystem)) = init := by
        apply List.filter_eq_self.mpr
        intro x hx
        have := List.filter_eq_nil_iff.mp h1 x hx
        simpa using this
      have hnc : (([.system c] : List BaseMessage).filter (fun x => !(x.isSystem))) =
          [] := rfl
      rw [hin, hnc, List.append_nil]
    apply mmExt
    · rw [hmsgs, h2, ← hinit]
    · rfl

theorem remove_readd_system_amended_witness :
    ((MessageManager.mk [.human "h", .system "s"] 8192).getTokenCount ≤ 8192 ∧
      (MessageManager.mk [.human "h", .system "s"] 8192).messages.filter
        (fun x => x.isSystem) = [.system "s"]) ∧
    ((MessageManager.mk [.human "h", .system "s"] 8192).messages.getLast? =
        some (.system "s") →
      (MessageManager.mk [.human "h", .system "s"] 8192).addSystem "s" =
        MessageManager.mk [.human "h", .system "s"] 8192) :=
  ⟨⟨by decide, by decide⟩,
    (remove_readd_system_amended (MessageManager.mk [.human "h", .system "s"] 8192)
      "s" (by decide) (by decide)).2⟩

/-! ## C7 — at most one system entry -/

/-- C7 counterexample: the generic public `add` accepts a raw system
message without removing prior ones, so two consecutive `add`s of system
messages leave two live system entries. -/
theorem one_system_entry_counterexample :
    systemCount (((MessageManager.mk [] 8192).add (.system "a")).add (.system "b")) =
      2 := by
  decide

theorem systemCount_add_le (mm : MessageManager) (m : BaseMessage) :
    systemCount (mm.add m) ≤
      systemCount mm + (if m.isSystem then 1 else 0) := by
  have hs := (trim_sublist mm.maxTokens (mm.messages ++ [m])).filter
    (fun x => x.isSystem)
  have hlen := hs.length_le
  rw [List.filter_append, List.length_append] at hlen
  have hone : (([m] : List BaseMessage).filter (fun x => x.isSystem)).length =
      if m.isSystem then 1 else 0 := by
    by_cases hm : m.isSystem = true
    · rw [List.filter_cons_of_pos hm]
      simp [hm]
    · rw [List.filter_cons_of_neg hm]
      simp [hm]
  rw [hone] at hlen
  exact hlen

theorem systemCount_addSystem (mm : MessageManager) (c : String) :
    systemCount (mm.addSystem c) = 1 := by
  obtain ⟨init', hsub, heq⟩ := trim_keeps_last mm.maxTokens
    (mm.messages.filter (fun x => !(x.isSystem))) (.system c)
    (Or.inr (fun x hx => by
      have := (List.mem_filter.mp hx).2
      simpa using this))
  show ((trimIfNeededList mm.maxTokens
    (mm.messages.filter (fun x => !(x.isSystem)) ++ [.system c])).filter
      (fun x => x.isSystem)).length = 1
  rw [heq, List.filter_append]
  have hz : init'.filter (fun x => x.isSystem) = [] := by
    apply List.filter_eq_nil_iff.mpr
    intro x hx
    have := (List.mem_filter.mp (hsub.subset hx)).2
    simpa using this
  rw [hz]
  rfl

theorem systemCount_applyOp (mm : MessageManager) (op : StoreOp)
    (h : systemCount mm ≤ 1) : systemCount (applyOp mm op) ≤ 1 := by
  cases op with
  | human c =>
    have hle := systemCount_add_le mm (.human c)
    rw [show (if (BaseMessage.human c).isSystem then 1 else 0) = 0 from rfl] at hle
    exact le_trans hle (by omega)
  | ai c =>
    have hle := systemCount_add_le mm (.ai c)
    rw [show (if (BaseMessage.ai c).isSystem then 1 else 0) = 0 from rfl] at hle
    exact le_trans hle (by omega)
  | tool c id =>
    have hle := systemCount_add_le mm (.tool c id)
    rw [show (if (BaseMessage.tool c id).isSystem then 1 else 0) = 0 from rfl] at hle
    exact le_trans hle (by omega)
  | system c =>
    rw [show applyOp mm (.system c) = mm.addSystem c from rfl,
      systemCount_addSystem]
  | clear =>
    show ((([] : List BaseMessage)).filter (fun x => x.isSystem)).length ≤ 1
    simp
  | removeLast =>
    have hs := (List.dropLast_sublist mm.messages).filter (fun x => x.isSystem)
    exact le_trans hs.length_le h

/-- C7 (amended): installing a system entry through `addSystem` always
leaves exactly one live system entry, and any sequence of the kind-specific
public operations preserves the at-most-one-system-entry invariant; the
counterexample shows the generic `add` of a raw system message can break
it. -/
theorem one_system_entry_amended :
    (∀ (mm : MessageManager) (c : String), systemCount (mm.addSystem c) = 1) ∧
    (∀ (ops : List StoreOp) (mm : MessageManager), systemCount mm ≤ 1 →
      systemCount (applyOps mm ops) ≤ 1) := by
  refine ⟨systemCount_addSystem, ?_⟩
  intro ops
  induction ops with
  | nil =>
    intro mm h
    exact h
  | cons op rest ih =>
    intro mm h
    exact ih _ (systemCount_applyOp mm op h)

theorem one_system_entry_amended_witness :
    systemCount ((MessageManager.mk [] 8192).addSystem "s") = 1 ∧
    systemCount (applyOps (MessageManager.mk [] 8192)
      [.system "s", .human "h", .system "t", .tool "r" "id", .removeLast,
        .ai "x", .clear]) ≤ 1 :=
  ⟨one_system_entry_amended.1 (MessageManager.mk [] 8192) "s",
    one_system_entry_amended.2 _ (MessageManager.mk [] 8192) (by decide)⟩

/-! ## C10 — enumeration returns a fresh copy -/

/-- C10: in the heap model of array identity, `getMessages` (and thus the
read-only view's `getAll`, its literal delegate) allocates a fresh array:
the returned address differs from the store's internal one, its contents
equal the store's contents, the store is unchanged by the call, and
overwriting the returned array leaves the store's subsequent enumeration
and token count unchanged. -/
theorem enumeration_returns_fresh_copy (h : Heap) (r : MessageManagerRef)
    (hr : r.addr < h.cells.length) (a : List BaseMessage) :
    (getMessagesRef h r).2 ≠ r.addr ∧
    (getMessagesRef h r).1.read (getMessagesRef h r).2 = h.read r.addr ∧
    (getMessagesRef h r).1.read r.addr = h.read r.addr ∧
    ((getMessagesRef h r).1.write (getMessagesRef h r).2 a).read r.addr =
      h.read r.addr ∧
    tokenCountList (((getMessagesRef h r).1.write (getMessagesRef h r).2 a).read
      r.addr) = tokenCountList (h.read r.addr) ∧
    getAllRef = getMessagesRef := by
  have haddr : (getMessagesRef h r).2 = h.cells.length := rfl
  have hcells : (getMessagesRef h r).1.cells = h.cells ++ [h.read r.addr] := rfl
  have h1 : (getMessagesRef h r).2 ≠ r.addr := by
    rw [haddr]
    omega
  have h2 : (getMessagesRef h r).1.read (getMessagesRef h r).2 = h.read r.addr := by
    show ((h.cells ++ [h.read r.addr]).getD h.cells.length []) = _
    rw [List.getD_eq_getElem?_getD, List.getElem?_concat_length]
    rfl
  have h3 : (getMessagesRef h r).1.read r.addr = h.read r.addr := by
    show ((h.cells ++ [h.read r.addr]).getD r.addr []) = h.cells.getD r.addr []
    rw [List.getD_eq_getElem?_getD, List.getD_eq_getElem?_getD,
      List.getElem?_append_left hr]
  have h4 : ((getMessagesRef h r).1.write (getMessagesRef h r).2 a).read r.addr =
      h.read r.addr := by
    show (((h.cells ++ [h.read r.addr]).set h.cells.length a).getD r.addr []) = _
    rw [List.getD_eq_getElem?_getD, List.getElem?_set_ne (by omega),
      List.getElem?_append_left hr]
    rw [Heap.read, List.getD_eq_getElem?_getD]
  exact ⟨h1, h2, h3, h4, by rw [h4], rfl⟩

theorem enumeration_returns_fresh_copy_witness :
    ((MessageManagerRef.mk 0).addr <
      (Heap.mk [[BaseMessage.human "x"]]).cells.length) ∧
    ((getMessagesRef (Heap.mk [[BaseMessage.human "x"]])
        (MessageManagerRef.mk 0)).1.write
      (getMessagesRef (Heap.mk [[BaseMessage.human "x"]])
        (MessageManagerRef.mk 0)).2 []).read 0 =
      (Heap.mk [[BaseMessage.human "x"]]).read 0 :=
  ⟨by decide,
    (enumeration_returns_fresh_copy (Heap.mk [[BaseMessage.human "x"]])
      (MessageManagerRef.mk 0) (by decide) []).2.2.2.1⟩

/-! ## C2 — classification failures default to the complex strategy -/

/-- C2: for every classification failure — tool not registered, thrown
invocation, malformed result string, non-ok result, or malformed `output`
payload — `_classifyTask` returns `is_simple_task = false`, so no task is
routed to the simple strategy as a result of an error. -/
theorem classification_failure_defaults_complex (o : ClassifyOracle)
    (h : o.isFailure) : (classifyTask o).is_simple_task = false := by
  unfold classifyTask
  by_cases ht : o.toolRegistered = true
  · rw [if_neg (by simp [ht])]
    rcases ho : o.outcome with e | ⟨raw, parsed⟩
    · rfl
    · rcases parsed with _ | parsed
      · rfl
      · dsimp only
        by_cases hok : parsed.ok = true
        · rw [if_pos hok]
          rcases hp : o.parseOutput parsed.output with _ | c
          · rfl
          · exact absurd ⟨ht, raw, parsed, c, ho, hok, hp⟩ h
        · rw [if_neg hok]
  · rw [if_pos (by simp [ht])]

theorem classification_failure_defaults_complex_witness :
    (ClassifyOracle.mk true (.returns "oops" none) (fun _ => none)).isFailure ∧
    (classifyTask (ClassifyOracle.mk true (.returns "oops" none)
      (fun _ => none))).is_simple_task = false := by
  have hfail : (ClassifyOracle.mk true (.returns "oops" none)
      (fun _ => none)).isFailure := by
    rintro ⟨-, raw, parsed, c, hout, -, -⟩
    simp at hout
  exact ⟨hfail, classification_failure_defaults_complex _ hfail⟩

/-! ## C5 — planner and validator failure handling -/

/-- C5 evaluation at the failing input: a throwing validator invocation
makes `_validateTaskCompletion` return `isComplete = true` with the
self-contradictory reasoning string `Validation failed - continuing
execution`, and the multi-step strategy thereupon declares the task
complete (a successful terminal outcome after one executed step); by
contrast the planner half of the claim holds — a failed planner invocation
yields the empty plan. -/
theorem validation_failure_declares_complete :
    (validateTaskCompletion (ValidateOracle.mk true (.throws "LLM error")
      (fun _ => none))) =
      ValidationResult.mk true "Validation failed - continuing execution" [] ∧
    ((executeMultiStepStrategy
        (fun mm => createMultiStepPlan
          (.returns "planraw" (some (plannerToolFunc (.ok [PlanStep.mk "Navigate" "start"]))))
          mm)
        (fun _ => validateTaskCompletion (ValidateOracle.mk true
          (.throws "LLM error") (fun _ => none)))
        (executeSingleTurn (fun _ => LLMResponse.mk "thinking" []) (fun _ => none))
        (MessageManager.mk [] 8192)).2 = (1, Except.ok ())) ∧
    (∀ (e raw : String) (mm : MessageManager),
      (createMultiStepPlan (.returns raw (some (plannerToolFunc (.error e)))) mm).2 =
        .ok []) := by
  refine ⟨rfl, ?_, fun e raw mm => rfl⟩
  rfl

/-! ## C4 — tool dispatch failure handling -/

/-- C4 counterexample, against the strategy variant's dispatch loop: a
missing tool is skipped with no synthesized failure entry appended (the
store is unchanged), and a thrown tool invocation propagates out of the
dispatch loop as an exception instead of being converted to an
`{ok:false}` result. -/
theorem dispatch_failure_counterexample :
    (processToolCallsStrategy (fun _ => none)
      [ToolCall.mk "foo_tool" "" "call_1"] (MessageManager.mk [] 8192) false =
      (MessageManager.mk [] 8192, Except.ok false)) ∧
    (processToolCallsStrategy
      (fun name => if name = "bar_tool" then
        some (fun _ => ToolOutcome.throws "boom") else none)
      [ToolCall.mk "bar_tool" "" "call_2"] (MessageManager.mk [] 8192) false =
      (MessageManager.mk [] 8192, Except.error "boom")) :=
  ⟨rfl, rfl⟩

/-- C4 (amended), for the iteration-loop variant's dispatch: a missing
tool synthesizes an `{ok:false, error: Tool ... not found}` result,
records it as a tool entry and continues with the next call; a thrown
invocation is caught, converted to `{ok:false, error}`, recorded and
dispatch continues — no exception escapes. In the strategy variant (see
the counterexample) a missing tool records nothing and a thrown
invocation propagates. -/
theorem dispatch_failure_amended (env : ToolEnv) (tc : ToolCall)
    (rest : List ToolCall) (mm : MessageManager) (plan : List PlanStep) :
    (env tc.name = none →
      processToolCallsIter env (tc :: rest) mm plan =
        processToolCallsIter env rest
          (updateMMWithToolCall mm tc.name
            (ParsedResult.mk false "" (some ("Tool " ++ tc.name ++ " not found")) none)
            (some tc.id)) []) ∧
    (∀ f e, env tc.name = some f → f tc.args = .throws e →
      processToolCallsIter env (tc :: rest) mm plan =
        processToolCallsIter env rest
          (updateMMWithToolCall mm tc.name
            (ParsedResult.mk false "" (some e) none) (some tc.id)) []) := by
  constructor
  · intro henv
    show (match env tc.name with
      | none => _
      | some f => _) = _
    rw [henv]
  · intro f e henv hf
    show (match env tc.name with
      | none => _
      | some f => _) = _
    rw [henv]
    dsimp only
    rw [hf]
    simp

theorem dispatch_failure_amended_witness :
    (processToolCallsIter (fun _ => none) [ToolCall.mk "foo_tool" "" "c1"]
        (MessageManager.mk [] 8192) [] =
      processToolCallsIter (fun _ => none) []
        (updateMMWithToolCall (MessageManager.mk [] 8192) "foo_tool"
          (ParsedResult.mk false ""
            (some ("Tool " ++ "foo_tool" ++ " not found")) none) (some "c1")) []) :=
  (dispatch_failure_amended (fun _ => none) (ToolCall.mk "foo_tool" "" "c1") []
    (MessageManager.mk [] 8192) []).1 rfl

/-! ## C6 — completion iff successful done_tool; mid-batch behaviour -/

theorem processToolCallsStrategy_done_flag (env : ToolEnv) :
    ∀ (calls : List ToolCall) (mm : MessageManager) (w : Bool)
      (mm' : MessageManager) (b : Bool),
      processToolCallsStrategy env calls mm w = (mm', .ok b) →
      b = (w || calls.any (callSucceedsDone env)) := by
  intro calls
  induction calls with
  | nil =>
    intro mm w mm' b h
    simp only [processToolCallsStrategy] at h
    injection h with h1 h2
    injection h2 with h2
    simp [h2.symm]
  | cons tc rest ih =>
    intro mm w mm' b h
    simp only [processToolCallsStrategy] at h
    rcases henv : env tc.name with _ | f
    · rw [henv] at h
      have := ih _ _ _ _ h
      rw [this, List.any_cons]
      have hc : callSucceedsDone env tc = false := by
        unfold callSucceedsDone
        rw [henv]
      rw [hc]
      simp
    · rw [henv] at h
      dsimp only at h
      rcases hf : f tc.args with e | ⟨raw, parsed⟩
      · simp [hf] at h
      · rcases parsed with _ | parsed
        · simp [hf] at h
        · rw [hf] at h
          dsimp only at h
          have := ih _ _ _ _ h
          rw [this, List.any_cons]
          have hc : callSucceedsDone env tc =
              (tc.name == "done_tool" && parsed.ok) := by
            unfold callSucceedsDone
            rw [henv]
            dsimp only
            rw [hf]
          rw [hc, Bool.or_assoc]

/-- C6 (amended): in the strategy variant's dispatch a turn reports
completion exactly when some call of the batch is a successful `done_tool`
call — a successful completion mid-batch sets the flag and the remaining
calls are still dispatched; in the iteration-loop variant's dispatch a
successful `done_tool` call instead returns `true` immediately, so the
remaining already-enumerated calls of the batch are skipped. -/
theorem turn_completion_iff_done :
    (∀ (env : ToolEnv) (calls : List ToolCall) (mm mm' : MessageManager) (b : Bool),
      processToolCallsStrategy env calls mm false = (mm', .ok b) →
      (b = true ↔ ∃ tc ∈ calls, callSucceedsDone env tc = true)) ∧
    (∀ (env : ToolEnv) (tc : ToolCall) (rest : List ToolCall)
      (mm : MessageManager) (plan : List PlanStep) (f : String → ToolOutcome)
      (raw : String) (parsed : ParsedResult),
      env tc.name = some f → f tc.args = .returns raw (some parsed) →
      parsed.ok = true → tc.name = "done_tool" →
      processToolCallsIter env (tc :: rest) mm plan =
        (updateMMWithToolCall mm tc.name parsed (some tc.id), plan, true)) := by
  constructor
  · intro env calls mm mm' b h
    have := processToolCallsStrategy_done_flag env calls mm false mm' b h
    rw [Bool.false_or] at this
    rw [this, List.any_eq_true]
  · intro env tc rest mm plan f raw parsed henv hf hok hname
    show (match env tc.name with
      | none => _
      | some f => _) = _
    rw [henv]
    dsimp only
    rw [hf]
    dsimp only
    rw [if_pos (by rw [hname, hok]; rfl)]

theorem turn_completion_iff_done_witness :
    processToolCallsStrategy
        (fun name => if name = "done_tool" then
          some (fun _ => ToolOutcome.returns "dret"
            (some (ParsedResult.mk true "" none none))) else none)
        [ToolCall.mk "done_tool" "" "c1"] (MessageManager.mk [] 8192) false =
      ((MessageManager.mk [] 8192).addTool "dret" "c1", Except.ok true) ∧
    ((true = true) ↔ ∃ tc ∈ [ToolCall.mk "done_tool" "" "c1"],
      callSucceedsDone
        (fun name => if name = "done_tool" then
          some (fun _ => ToolOutcome.returns "dret"
            (some (ParsedResult.mk true "" none none))) else none) tc = true) :=
  ⟨rfl,
    (turn_completion_iff_done.1
      (fun name => if name = "done_tool" then
        some (fun _ => ToolOutcome.returns "dret"
          (some (ParsedResult.mk true "" none none))) else none)
      [ToolCall.mk "done_tool" "" "c1"] (MessageManager.mk [] 8192)
      ((MessageManager.mk [] 8192).addTool "dret" "c1") true rfl)⟩

/-- C6 counterexample: in the iteration-loop dispatch, a batch whose first
call is a successful `done_tool` followed by another call returns
completion immediately with exactly one recorded tool entry — the second
already-enumerated call is never dispatched (the strategy variant's
dispatch, run on the same batch, records both). -/
theorem done_midbatch_skips_rest_counterexample :
    ((processToolCallsIter
      (fun name => if name = "done_tool" then
        some (fun _ => ToolOutcome.returns "dret"
          (some (ParsedResult.mk true "" none none)))
      else if name = "echo_tool" then
        some (fun _ => ToolOutcome.returns "eret"
          (some (ParsedResult.mk true "" none none)))
      else none)
      [ToolCall.mk "done_tool" "" "c1", ToolCall.mk "echo_tool" "" "c2"]
      (MessageManager.mk [] 8192) []).2.2 = true) ∧
    ((processToolCallsIter
      (fun name => if name = "done_tool" then
        some (fun _ => ToolOutcome.returns "dret"
          (some (ParsedResult.mk true "" none none)))
      else if name = "echo_tool" then
        some (fun _ => ToolOutcome.returns "eret"
          (some (ParsedResult.mk true "" none none)))
      else none)
      [ToolCall.mk "done_tool" "" "c1", ToolCall.mk "echo_tool" "" "c2"]
      (MessageManager.mk [] 8192) []).1.messages.length = 1) ∧
    ((processToolCallsStrategy
      (fun name => if name = "done_tool" then
        some (fun _ => ToolOutcome.returns "dret"
          (some (ParsedResult.mk true "" none none)))
      else if name = "echo_tool" then
        some (fun _ => ToolOutcome.returns "eret"
          (some (ParsedResult.mk true "" none none)))
      else none)
      [ToolCall.mk "done_tool" "" "c1", ToolCall.mk "echo_tool" "" "c2"]
      (MessageManager.mk [] 8192) false).1.messages.length = 2) := by
  refine ⟨rfl, rfl, rfl⟩

/-! ## C1 — termination, attempt/step ceilings and the exhaustion paths -/

set_option maxRecDepth 40000 in
/-- C1 counterexample: a concrete run of the simple strategy with a model
that never issues tool calls. The strategy terminates after exactly 3
attempts by throwing the exhaustion error, but the context store ends up
holding exactly the six entries written by the three turns — no
human-readable exhaustion message is appended to the store (no entry even
contains the word `failed`). -/
theorem simple_exhaustion_counterexample :
    ((executeSimpleTaskStrategy
      (executeSingleTurn (fun _ => LLMResponse.mk "Working on it" [])
        (fun _ => none))
      "check the weather" (MessageManager.mk [] 8192)).2 =
      Except.error simpleExhaustionError) ∧
    ((executeSimpleTaskStrategy
      (executeSingleTurn (fun _ => LLMResponse.mk "Working on it" [])
        (fun _ => none))
      "check the weather" (MessageManager.mk [] 8192)).1.messages =
      [.human (simpleInstruction "check the weather" 1), .ai "Working on it",
       .human (simpleInstruction "check the weather" 2), .ai "Working on it",
       .human (simpleInstruction "check the weather" 3), .ai "Working on it"]) ∧
    (∀ m ∈ (executeSimpleTaskStrategy
      (executeSingleTurn (fun _ => LLMResponse.mk "Working on it" [])
        (fun _ => none))
      "check the weather" (MessageManager.mk [] 8192)).1.messages,
      strIncludes m.content "failed" = false) := by
  refine ⟨rfl, rfl, ?_⟩
  decide

theorem execPlanSegment_no_done (turn : TurnFn)
    (hturn : ∀ instr mm, ∃ mm', turn instr mm = (mm', .ok false)) :
    ∀ (steps : List PlanStep) (mm : MessageManager) (ts : Nat),
      ts ≤ MAX_TOTAL_STEPS →
      ∃ mm2 ts2, execPlanSegment turn steps mm ts = (mm2, ts2, .ok false) ∧
        ts ≤ ts2 ∧ ts2 ≤ MAX_TOTAL_STEPS ∧
        (steps ≠ [] → ts < MAX_TOTAL_STEPS → ts < ts2) := by
  intro steps
  induction steps with
  | nil =>
    intro mm ts hts
    exact ⟨mm, ts, rfl, Nat.le_refl _, hts, fun hne _ => absurd rfl hne⟩
  | cons step rest ih =>
    intro mm ts hts
    by_cases hceil : MAX_TOTAL_STEPS ≤ ts
    · refine ⟨mm, ts, ?_, Nat.le_refl _, hts, fun _ hlt => absurd hlt (by omega)⟩
      simp only [execPlanSegment, if_pos hceil]
    · obtain ⟨mm1, ht⟩ := hturn step.action mm
      obtain ⟨mm2, ts2, hseg, h1, h2, h3⟩ := ih mm1 (ts + 1) (by omega)
      refine ⟨mm2, ts2, ?_, by omega, h2, fun _ _ => by omega⟩
      simp only [execPlanSegment, if_neg hceil]
      rw [ht]
      exact hseg

theorem multiStepGo_exhausts
    (plan : MessageManager → MessageManager × Except String (List PlanStep))
    (validate : MessageManager → ValidationResult) (turn : TurnFn)
    (hturn : ∀ instr mm, ∃ mm', turn instr mm = (mm', .ok false))
    (hplan : ∀ mm, ∃ mm' steps, plan mm = (mm', .ok steps) ∧ steps ≠ [])
    (hval : ∀ mm, (validate mm).isComplete = false) :
    ∀ (fuel : Nat) (mm : MessageManager) (ts : Nat),
      ts ≤ MAX_TOTAL_STEPS → MAX_TOTAL_STEPS - ts ≤ fuel →
      (multiStepGo plan validate turn fuel mm ts).2.1 = MAX_TOTAL_STEPS ∧
      (multiStepGo plan validate turn fuel mm ts).2.2 = .error maxStepsError := by
  intro fuel
  induction fuel with
  | zero =>
    intro mm ts h1 h2
    have hts : ts = MAX_TOTAL_STEPS := by omega
    subst hts
    exact ⟨rfl, rfl⟩
  | succ fuel ih =>
    intro mm ts h1 h2
    by_cases hts : ts < MAX_TOTAL_STEPS
    · obtain ⟨mm1, steps, hpl, hne⟩ := hplan mm
      obtain ⟨mm2, ts2, hseg, hle1, hle2, hlt⟩ :=
        execPlanSegment_no_done turn hturn steps mm1 ts h1
      have hlt2 : ts < ts2 := hlt hne hts
      have hunf : multiStepGo plan validate turn (fuel + 1) mm ts =
          multiStepGo plan validate turn fuel
            (if (validate mm2).suggestions.isEmpty then mm2
              else mm2.addAI (validationMessage (validate mm2))) ts2 := by
        show (if ts < MAX_TOTAL_STEPS then _ else _) = _
        rw [if_pos hts, hpl]
        dsimp only
        rw [if_neg hne, hseg]
        dsimp only
        rw [if_neg (by rw [hval mm2]; exact Bool.false_ne_true)]
      rw [hunf]
      exact ih _ ts2 hle2 (by omega)
    · have hts2 : ts = MAX_TOTAL_STEPS := by omega
      subst hts2
      have : multiStepGo plan validate turn (fuel + 1) mm MAX_TOTAL_STEPS =
          (mm, MAX_TOTAL_STEPS, .error maxStepsError) := by
        show (if MAX_TOTAL_STEPS < MAX_TOTAL_STEPS then _ else _) = _
        rw [if_neg (lt_irrefl _)]
      rw [this]
      exact ⟨rfl, rfl⟩

/-- C1 (amended): under a model that never issues a successful sentinel
completion call (and, for the multi-step strategy, a planner that always
returns a non-empty plan and a validator that keeps reporting incomplete),
both strategies terminate and fail by throwing: the simple strategy
performs exactly 3 turns — its final store is exactly the store left by
those three turns, nothing more appended — and throws the exhaustion
error; the multi-step strategy stops with `totalStepsExecuted` exactly at
the 20-step ceiling and throws the max-steps error. Neither strategy
appends an exhaustion message to the context store (the thrown error
carries the human-readable message instead). -/
theorem exhaustion_amended (turn : TurnFn)
    (plan : MessageManager → MessageManager × Except String (List PlanStep))
    (validate : MessageManager → ValidationResult) (task : String)
    (mm₁ mm₂ : MessageManager)
    (hturn : ∀ instr mm, ∃ mm', turn instr mm = (mm', .ok false))
    (hplan : ∀ mm, ∃ mm' steps, plan mm = (mm', .ok steps) ∧ steps ≠ [])
    (hval : ∀ mm, (validate mm).isComplete = false) :
    (executeSimpleTaskStrategy turn task mm₁ =
      ((turn (simpleInstruction task 3)
        (turn (simpleInstruction task 2)
          (turn (simpleInstruction task 1) mm₁).1).1).1,
        .error simpleExhaustionError)) ∧
    ((executeMultiStepStrategy plan validate turn mm₂).2.1 = MAX_TOTAL_STEPS ∧
      (executeMultiStepStrategy plan validate turn mm₂).2.2 =
        .error maxStepsError) := by
  constructor
  · obtain ⟨mma, ha⟩ := hturn (simpleInstruction task 1) mm₁
    obtain ⟨mmb, hb⟩ := hturn (simpleInstruction task 2) mma
    obtain ⟨mmc, hc⟩ := hturn (simpleInstruction task 3) mmb
    show simpleAttemptLoop turn task 3 1 mm₁ = _
    rw [show (3 : Nat) = 2 + 1 from rfl, simpleAttemptLoop, ha]
    dsimp only
    rw [show (2 : Nat) = 1 + 1 from rfl, simpleAttemptLoop, hb]
    dsimp only
    rw [show (1 + 1 + 1 : Nat) = 2 + 1 from rfl]
    rw [show (1 : Nat) = 0 + 1 from rfl, simpleAttemptLoop]
    rw [show (0 + 1 + 1 + 1 : Nat) = 3 from rfl, hc]
    rfl
  · exact multiStepGo_exhausts plan validate turn hturn hplan hval
      MAX_TOTAL_STEPS mm₂ 0 (by omega) (by omega)

theorem exhaustion_amended_witness :
    (executeSimpleTaskStrategy
      (executeSingleTurn (fun _ => LLMResponse.mk "w" []) (fun _ => none))
      "t" (MessageManager.mk [] 8192) =
      (((MessageManager.mk [] 8192).addHuman (simpleInstruction "t" 1)
          |>.addAI "w" |>.addHuman (simpleInstruction "t" 2) |>.addAI "w"
          |>.addHuman (simpleInstruction "t" 3) |>.addAI "w"),
        .error simpleExhaustionError)) ∧
    ((executeMultiStepStrategy
        (fun mm => createMultiStepPlan
          (.returns "praw" (some (plannerToolFunc (.ok [PlanStep.mk "s" "r"])))) mm)
        (fun _ => validateTaskCompletion (ValidateOracle.mk true
          (.returns "vraw" (some (ParsedResult.mk true "vout" none none)))
          (fun _ => some (ValidationResult.mk false "keep going" ["do more"]))))
        (executeSingleTurn (fun _ => LLMResponse.mk "w" []) (fun _ => none))
        (MessageManager.mk [] 8192)).2.1 = MAX_TOTAL_STEPS ∧
      (executeMultiStepStrategy
        (fun mm => createMultiStepPlan
          (.returns "praw" (some (plannerToolFunc (.ok [PlanStep.mk "s" "r"])))) mm)
        (fun _ => validateTaskCompletion (ValidateOracle.mk true
          (.returns "vraw" (some (ParsedResult.mk true "vout" none none)))
          (fun _ => some (ValidationResult.mk false "keep going" ["do more"]))))
        (executeSingleTurn (fun _ => LLMResponse.mk "w" []) (fun _ => none))
        (MessageManager.mk [] 8192)).2.2 = .error maxStepsError) := by
  have h := exhaustion_amended
    (executeSingleTurn (fun _ => LLMResponse.mk "w" []) (fun _ => none))
    (fun mm => createMultiStepPlan
      (.returns "praw" (some (plannerToolFunc (.ok [PlanStep.mk "s" "r"])))) mm)
    (fun _ => validateTaskCompletion (ValidateOracle.mk true
      (.returns "vraw" (some (ParsedResult.mk true "vout" none none)))
      (fun _ => some (ValidationResult.mk false "keep going" ["do more"]))))
    "t" (MessageManager.mk [] 8192) (MessageManager.mk [] 8192)
    (fun instr mm => ⟨_, rfl⟩)
    (fun mm => ⟨_, [PlanStep.mk "s" "r"], rfl, by decide⟩)
    (fun mm => rfl)
  exact ⟨h.1, h.2⟩

end Spec2Proof
